import Mathlib

/-!
Verification of the discovery → tracking → diff → scoring pipeline of the
analysis-auto-trade-hyperliquid repository.

Each Python function under scrutiny is shallowly embedded as an executable
Lean definition:

* `detect_position_changes` from `app/services/tasks/utils.py` — the state
  diff engine.  Account states are JSON-like dictionaries; we model exactly
  the fields the function reads.  A position's `szi` string is modelled as
  either a numeric value (a rational: the comparisons performed on the
  parsed float — equality with zero and sign — are exact), a non-numeric
  string (on which `float()` raises `ValueError`), or an absent key (on
  which the subscript raises `KeyError`).  Python exceptions are modelled
  with `Except`; the function's own `try/except` is the `match` in
  `detectLoop`, which abandons the per-coin loop at the first error and
  returns the events accumulated so far, exactly as the Python `except`
  clause does.  The iteration order of the Python `set` union is
  unspecified; the embedding fixes the order "previous-state coins first,
  then new current-state coins" (membership and per-coin results are order
  independent).
* `RateLimiter.wait_if_needed` from `app/services/hyperliquid_client.py`,
  with time in whole seconds.
* the reconnect loop of `WebSocketDiscoveryService.start` from
  `app/services/discovery_service.py`, driven by a script of per-iteration
  connection outcomes.
* the batch selection and `last_tracked_at` update of
  `_track_traders_batch_async` from `app/services/tasks/tracking_task.py`.
* `_get_default_metrics` and `_calculate_trader_scores` from
  `app/services/tasks/leaderboard_task.py`, with metric values as
  rationals.
-/

namespace AutoTrade

/-! ## State diff engine (`app/services/tasks/utils.py`) -/

/-- The `szi` field of a position dictionary: the key may be absent
(`KeyError` on subscript), hold a non-numeric string (`ValueError` in
`float()`), or hold a numeric string with value `q`. -/
inductive SziField
  | missing
  | nonNumeric
  | val (q : ℚ)
  deriving DecidableEq, Repr

/-- One `position` object: `coin` is the result of `.get('coin', '')`
(so an absent key is the empty string), `szi` as above, `entryPx` the
optional entry-price string. -/
structure RawPosition where
  coin : String
  szi : SziField
  entryPx : Option String
  deriving DecidableEq, Repr

/-- One element of the `assetPositions` list; `position := none` models an
element without a `'position'` key. -/
structure AssetPositionEntry where
  position : Option RawPosition
  deriving DecidableEq, Repr

/-- An account state as read by `detect_position_changes`:
`assetPositions := none` models a state without an `'assetPositions'` key. -/
structure UserState where
  assetPositions : Option (List AssetPositionEntry)
  deriving DecidableEq, Repr

/-- Python dictionary assignment `m[k] = v`: overwrite in place if the key
exists, else append. -/
def dictInsert (m : List (String × RawPosition)) (k : String) (v : RawPosition) :
    List (String × RawPosition) :=
  if m.any (fun p => p.1 == k) then
    m.map (fun p => if p.1 == k then (k, v) else p)
  else m ++ [(k, v)]

/-- The parse phase of `detect_position_changes`: build the coin → position
dictionary from a state (`prev_positions` / `curr_positions` in the source). -/
def extractPositions (s : UserState) : List (String × RawPosition) :=
  match s.assetPositions with
  | none => []
  | some entries =>
    entries.foldl
      (fun m e =>
        match e.position with
        | none => m
        | some pos => if pos.coin ≠ "" then dictInsert m pos.coin pos else m)
      []

/-- `float(pos['szi']) if pos else 0`: absent position is flat (size 0);
a present position raises unless `szi` parses. -/
def posSize : Option RawPosition → Except Unit ℚ
  | none => .ok 0
  | some pos =>
    match pos.szi with
    | .val q => .ok q
    | _ => .error ()

/-- The `details` dictionary of an emitted event.  `size` holds the numeric
value whose decimal rendering `str(...)` the source stores; `entry_price`
is present only on `OPEN_POSITION` events. -/
structure EventDetails where
  coin : String
  size : ℚ
  side : String
  entry_price : Option String
  deriving DecidableEq, Repr

/-- A `TradeEvent` row as constructed by `detect_position_changes`. -/
structure TradeEvent where
  trader_id : Nat
  timestamp : Nat
  event_type : String
  details : EventDetails
  deriving DecidableEq, Repr

/-- The `OPEN_POSITION` event built when `prev_size == 0 and curr_size != 0`. -/
def openEvent (tid ts : Nat) (c : String) (currSize : ℚ)
    (currPos : Option RawPosition) : TradeEvent :=
  { trader_id := tid
    timestamp := ts
    event_type := "OPEN_POSITION"
    details :=
      { coin := c
        size := currSize
        side := if 0 < currSize then "LONG" else "SHORT"
        entry_price := some (match currPos with
          | some p => p.entryPx.getD "0"
          | none => "0") } }

/-- The `CLOSE_POSITION` event built when `prev_size != 0 and curr_size == 0`. -/
def closeEvent (tid ts : Nat) (c : String) (prevSize : ℚ) : TradeEvent :=
  { trader_id := tid
    timestamp := ts
    event_type := "CLOSE_POSITION"
    details :=
      { coin := c
        size := prevSize
        side := if 0 < prevSize then "LONG" else "SHORT"
        entry_price := none } }

/-- The per-coin body of the comparison loop: read both sizes (possibly
raising), then emit the event the source emits for this coin. -/
def coinEvents (prevM currM : List (String × RawPosition)) (ts tid : Nat)
    (c : String) : Except Unit (List TradeEvent) := do
  let prevSize ← posSize (prevM.lookup c)
  let currSize ← posSize (currM.lookup c)
  if prevSize = 0 ∧ currSize ≠ 0 then
    pure [openEvent tid ts c currSize (currM.lookup c)]
  else if prevSize ≠ 0 ∧ currSize = 0 then
    pure [closeEvent tid ts c prevSize]
  else
    pure []

/-- The comparison loop under the source's `try`: the first raised exception
abandons the loop and the events accumulated so far are returned. -/
def detectLoop (prevM currM : List (String × RawPosition)) (ts tid : Nat) :
    List String → List TradeEvent → List TradeEvent
  | [], acc => acc
  | c :: cs, acc =>
    match coinEvents prevM currM ts tid c with
    | .error _ => acc
    | .ok evs => detectLoop prevM currM ts tid cs (acc ++ evs)

/-- `all_coins = set(prev_positions) | set(curr_positions)`, in the fixed
iteration order described in the module header. -/
def allCoins (prevM currM : List (String × RawPosition)) : List String :=
  (prevM.map Prod.fst ++ currM.map Prod.fst).dedup

/-- `detect_position_changes(previous_state, current_state, timestamp,
trader_id)` from `app/services/tasks/utils.py`. -/
def detect_position_changes (previous_state current_state : UserState)
    (ts tid : Nat) : List TradeEvent :=
  let prevM := extractPositions previous_state
  let currM := extractPositions current_state
  detectLoop prevM currM ts tid (allCoins prevM currM) []

/-- Both `szi` reads for a coin succeed (no exception for this coin). -/
def coinOk (prevM currM : List (String × RawPosition)) (c : String) : Bool :=
  (match prevM.lookup c with
    | none => true
    | some pos => match pos.szi with | .val _ => true | _ => false)
  &&
  (match currM.lookup c with
    | none => true
    | some pos => match pos.szi with | .val _ => true | _ => false)

/-- The signed size a coin parses to when its read succeeds (0 when the
coin is absent from the dictionary). -/
def sizeD (m : List (String × RawPosition)) (c : String) : ℚ :=
  match posSize (m.lookup c) with
  | .ok q => q
  | .error _ => 0

/-- The event (if any) the source emits for one exception-free coin. -/
def classifyOk (prevM currM : List (String × RawPosition)) (ts tid : Nat)
    (c : String) : Option TradeEvent :=
  if sizeD prevM c = 0 ∧ sizeD currM c ≠ 0 then
    some (openEvent tid ts c (sizeD currM c) (currM.lookup c))
  else if sizeD prevM c ≠ 0 ∧ sizeD currM c = 0 then
    some (closeEvent tid ts c (sizeD prevM c))
  else none

theorem coinEvents_eq (prevM currM : List (String × RawPosition)) (ts tid : Nat)
    (c : String) :
    coinEvents prevM currM ts tid c =
      if coinOk prevM currM c then
        Except.ok (classifyOk prevM currM ts tid c).toList
      else Except.error () := by
  unfold coinEvents coinOk classifyOk sizeD
  rcases prevM.lookup c with _ | ⟨c1, s1, e1⟩ <;>
    rcases currM.lookup c with _ | ⟨c2, s2, e2⟩ <;>
    (try rcases s1 with _ | _ | q1) <;>
    (try rcases s2 with _ | _ | q2) <;>
    simp only [posSize, Bind.bind, Except.bind]
  all_goals first
    | rfl
    | (split_ifs <;> first | rfl | simp_all)

theorem detectLoop_cons (prevM currM : List (String × RawPosition)) (ts tid : Nat)
    (c : String) (cs : List String) (acc : List TradeEvent) :
    detectLoop prevM currM ts tid (c :: cs) acc =
      match coinEvents prevM currM ts tid c with
      | .error _ => acc
      | .ok evs => detectLoop prevM currM ts tid cs (acc ++ evs) := rfl

theorem detectLoop_eq (prevM currM : List (String × RawPosition)) (ts tid : Nat)
    (coins : List String) (acc : List TradeEvent) :
    detectLoop prevM currM ts tid coins acc =
      acc ++ (coins.takeWhile (coinOk prevM currM)).filterMap
        (classifyOk prevM currM ts tid) := by
  induction coins generalizing acc with
  | nil => simp [detectLoop]
  | cons c cs ih =>
    have hc := coinEvents_eq prevM currM ts tid c
    by_cases h : coinOk prevM currM c
    · rw [if_pos h] at hc
      rw [detectLoop_cons, hc]
      rcases hcl : classifyOk prevM currM ts tid c with _ | e <;>
        simp [ih, List.takeWhile_cons_of_pos h, List.filterMap_cons, hcl]
    · rw [if_neg h] at hc
      rw [detectLoop_cons, hc, List.takeWhile_cons_of_neg (by simpa using h)]
      simp

theorem detect_eq (previous_state current_state : UserState) (ts tid : Nat) :
    detect_position_changes previous_state current_state ts tid =
      ((allCoins (extractPositions previous_state) (extractPositions current_state)).takeWhile
          (coinOk (extractPositions previous_state) (extractPositions current_state))).filterMap
        (classifyOk (extractPositions previous_state) (extractPositions current_state) ts tid) := by
  unfold detect_position_changes
  rw [detectLoop_eq]
  simp

theorem classifyOk_coin (prevM currM : List (String × RawPosition)) (ts tid : Nat)
    (c : String) (e : TradeEvent)
    (h : classifyOk prevM currM ts tid c = some e) : e.details.coin = c := by
  unfold classifyOk at h
  split_ifs at h <;> simp only [Option.some_inj] at h <;> subst h <;> rfl

theorem map_coin_filterMap (prevM currM : List (String × RawPosition)) (ts tid : Nat)
    (coins : List String) :
    (coins.filterMap (classifyOk prevM currM ts tid)).map (fun e => e.details.coin) =
      coins.filter (fun c => (classifyOk prevM currM ts tid c).isSome) := by
  induction coins with
  | nil => simp
  | cons c cs ih =>
    rw [List.filterMap_cons]
    rcases h : classifyOk prevM currM ts tid c with _ | e
    · simp [List.filter_cons, h, ih]
    · simp [List.filter_cons, h, ih, classifyOk_coin prevM currM ts tid c e h]

/-- A state holding exactly one position with a numeric `szi` string. -/
def mkState (c : String) (q : ℚ) (px : String) : UserState :=
  ⟨some [⟨some { coin := c, szi := .val q, entryPx := some px }⟩]⟩

/-- C10: `detect_position_changes` is total over arbitrary states: for every
pair of inputs its value equals the events accumulated over the longest
prefix of the coin iteration on which both `szi` reads succeed; an internal
exception (`coinOk` false) just truncates the iteration, and the accumulated
(possibly empty, possibly partial) event list is returned to the caller. -/
theorem detect_total_prefix (previous_state current_state : UserState)
    (ts tid : Nat) :
    detect_position_changes previous_state current_state ts tid =
      ((allCoins (extractPositions previous_state)
            (extractPositions current_state)).takeWhile
          (coinOk (extractPositions previous_state)
            (extractPositions current_state))).filterMap
        (classifyOk (extractPositions previous_state)
          (extractPositions current_state) ts tid) :=
  detect_eq previous_state current_state ts tid

/-- C1 counterexample: the signed size of `"BTC"` moves from 1 to 2 — the
same sign, `|curr| > |prev|`, a change far beyond the epsilon 1e-8 — so the
claim demands exactly one INCREASED event, but the code emits no event at
all. -/
theorem detect_no_event_on_increase :
    detect_position_changes (mkState "BTC" 1 "100") (mkState "BTC" 2 "100") 0 1 = [] ∧
    sizeD (extractPositions (mkState "BTC" 1 "100")) "BTC" = 1 ∧
    sizeD (extractPositions (mkState "BTC" 2 "100")) "BTC" = 2 ∧
    |(2 : ℚ) - 1| > 1 / 100000000 :=
  ⟨rfl, rfl, rfl, by norm_num⟩

/-- C1 (amended): when every coin's `szi` reads succeed, the diff emits, per
coin of the union, exactly the event of `classifyOk`: an `OPEN_POSITION`
event iff the previous size is exactly 0 and the current size is nonzero
(recording the current size, its side and the entry price), a
`CLOSE_POSITION` event iff the previous size is nonzero and the current size
is exactly 0 (recording the previous size and its side), and no event
otherwise — in particular no INCREASED/DECREASED/FLIPPED events, no epsilon
tolerance, and no previous/current/delta triple is recorded.  Each coin
occurs at most once among the emitted events. -/
theorem detect_open_close_only (previous_state current_state : UserState)
    (ts tid : Nat)
    (hwf : ∀ c ∈ allCoins (extractPositions previous_state)
        (extractPositions current_state),
      coinOk (extractPositions previous_state)
        (extractPositions current_state) c = true) :
    detect_position_changes previous_state current_state ts tid =
      (allCoins (extractPositions previous_state)
          (extractPositions current_state)).filterMap
        (classifyOk (extractPositions previous_state)
          (extractPositions current_state) ts tid) ∧
    ((detect_position_changes previous_state current_state ts tid).map
        (fun e => e.details.coin)).Nodup := by
  have h1 := List.takeWhile_eq_self_iff.mpr hwf
  refine ⟨by rw [detect_eq, h1], ?_⟩
  rw [detect_eq, h1, map_coin_filterMap]
  exact (List.nodup_dedup _).filter _

/-- Witness for C1 (amended): a concrete open of `"BTC"` at size 2. -/
theorem detect_open_close_only_witness :
    detect_position_changes (UserState.mk none) (mkState "BTC" 2 "50") 0 1 =
      (allCoins (extractPositions (UserState.mk none))
          (extractPositions (mkState "BTC" 2 "50"))).filterMap
        (classifyOk (extractPositions (UserState.mk none))
          (extractPositions (mkState "BTC" 2 "50")) 0 1) ∧
    ((detect_position_changes (UserState.mk none) (mkState "BTC" 2 "50") 0 1).map
        (fun e => e.details.coin)).Nodup :=
  detect_open_close_only (UserState.mk none) (mkState "BTC" 2 "50") 0 1
    (by intro c hc; fin_cases hc; rfl)

/-- C2 counterexample: `"BTC"` moves from exactly 0 to 1e-9 — a size change
of 1e-9, below the claimed epsilon 1e-8 — yet the code emits one
`OPEN_POSITION` event, so the result is not the empty list. -/
theorem detect_event_below_epsilon :
    (detect_position_changes (mkState "BTC" 0 "100")
        (mkState "BTC" (1 / 1000000000) "100") 0 1).length = 1 ∧
    sizeD (extractPositions (mkState "BTC" 0 "100")) "BTC" = 0 ∧
    sizeD (extractPositions (mkState "BTC" (1 / 1000000000) "100")) "BTC" =
      1 / 1000000000 ∧
    (1 : ℚ) / 1000000000 - 0 ≤ 1 / 100000000 ∧
    (0 : ℚ) < 1 / 1000000000 := by
  refine ⟨?_, ?_, ?_, by norm_num, by norm_num⟩
  · rw [detect_eq]
    simp [mkState, extractPositions, dictInsert, allCoins, coinOk, classifyOk,
      sizeD, posSize, List.lookup, List.dedup, List.pwFilter, List.takeWhile]
  · simp [mkState, extractPositions, dictInsert, sizeD, posSize, List.lookup]
  · simp [mkState, extractPositions, dictInsert, sizeD, posSize, List.lookup]

/-- C2 (amended): for every pair of snapshots whose `szi` reads all succeed
and in which no coin's signed size changes at all (exact equality, not the
epsilon-1e-8 tolerance the claim states), the diff returns the empty list. -/
theorem detect_no_change_no_events (previous_state current_state : UserState)
    (ts tid : Nat)
    (hwf : ∀ c ∈ allCoins (extractPositions previous_state)
        (extractPositions current_state),
      coinOk (extractPositions previous_state)
        (extractPositions current_state) c = true)
    (heq : ∀ c ∈ allCoins (extractPositions previous_state)
        (extractPositions current_state),
      sizeD (extractPositions previous_state) c =
        sizeD (extractPositions current_state) c) :
    detect_position_changes previous_state current_state ts tid = [] := by
  rw [detect_eq, List.takeWhile_eq_self_iff.mpr hwf, List.filterMap_eq_nil_iff]
  intro c hc
  unfold classifyOk
  rw [heq c hc]
  simp

/-- Witness for C2 (amended): identical one-position snapshots. -/
theorem detect_no_change_no_events_witness :
    detect_position_changes (mkState "BTC" 1 "100") (mkState "BTC" 1 "100") 0 1 = [] :=
  detect_no_change_no_events (mkState "BTC" 1 "100") (mkState "BTC" 1 "100") 0 1
    (by intro c hc; fin_cases hc; rfl)
    (by intro c hc; fin_cases hc; rfl)

/-! ## Rate limiter (`app/services/hyperliquid_client.py`, `RateLimiter`)

Time is modelled in whole seconds (`(now - last_reset).seconds` on a
sub-minute nonnegative timedelta is exactly the elapsed whole seconds).
`wait_if_needed` returns the successor state together with the time at
which the request is actually admitted (`now` itself, or the end of the
sleep); the sleep of `wait_time` seconds is modelled as exact. -/

/-- The counters of a `RateLimiter` instance. -/
structure RLState where
  requests_per_minute : Nat
  weight_per_minute : Nat
  last_reset : Nat
  deriving DecidableEq, Repr

/-- `max_weight_per_minute = 1200  # Per IP limit`. -/
def max_weight_per_minute : Nat := 1200

/-- `RateLimiter.wait_if_needed(weight)` called at time `now` (seconds):
reset the counters if a minute has passed, sleep to the end of the window
if the new weight would exceed the cap (resetting the counters after the
sleep), then add the request to the counters.  Returns the new state and
the admission time. -/
def wait_if_needed (s : RLState) (now weight : Nat) : RLState × Nat :=
  let s1 := if 60 ≤ now - s.last_reset then
    { requests_per_minute := 0, weight_per_minute := 0, last_reset := now }
  else s
  if max_weight_per_minute < s1.weight_per_minute + weight then
    let wait_time := 60 - (now - s1.last_reset)
    if 0 < wait_time then
      ({ requests_per_minute := 1, weight_per_minute := weight,
         last_reset := now + wait_time }, now + wait_time)
    else
      ({ s1 with requests_per_minute := s1.requests_per_minute + 1,
                 weight_per_minute := s1.weight_per_minute + weight }, now)
  else
    ({ s1 with requests_per_minute := s1.requests_per_minute + 1,
               weight_per_minute := s1.weight_per_minute + weight }, now)

/-- One admitted request of a run: the limiter state right after the
admission, the admission time, and the request's weight. -/
structure Admission where
  state : RLState
  time : Nat
  weight : Nat
  deriving DecidableEq, Repr

/-- Run the limiter over a sequence of `(call time, weight)` requests. -/
def runRL (s : RLState) : List (Nat × Nat) → List Admission
  | [] => []
  | (now, w) :: rest =>
    let r := wait_if_needed s now w
    { state := r.1, time := r.2, weight := w } :: runRL r.1 rest

/-- Total weight admitted in the rolling 60-second window starting at `t`. -/
def windowWeight (adms : List Admission) (t : Nat) : Nat :=
  ((adms.filter (fun a => decide (t ≤ a.time) && decide (a.time < t + 60))).map
    (fun a => a.weight)).sum

/-- C3 counterexample: with the limiter fresh at time 0, a request of weight
1200 at `t = 59` is admitted at 59 (filling the fixed window), and a request
of weight 1200 at `t = 60` triggers the lazy counter reset and is admitted
immediately at 60.  The rolling 60-second window `[30, 90)` then contains
admitted weight 2400, above the 1200 cap — the limiter bounds each fixed
window, not every rolling window.  Both request weights are within the cap. -/
theorem rl_rolling_window_exceeded :
    windowWeight (runRL ⟨0, 0, 0⟩ [(59, 1200), (60, 1200)]) 30 = 2400 ∧
    max_weight_per_minute < 2400 ∧
    (runRL ⟨0, 0, 0⟩ [(59, 1200), (60, 1200)]).map (fun a => a.time) = [59, 60] ∧
    ([(59, 1200), (60, 1200)].all
      (fun r : Nat × Nat => r.2 ≤ max_weight_per_minute)) = true := by
  decide

theorem rl_step_wpm_le (s : RLState) (now weight : Nat)
    (hw : weight ≤ max_weight_per_minute) :
    (wait_if_needed s now weight).1.weight_per_minute ≤ max_weight_per_minute := by
  simp only [wait_if_needed]
  split_ifs <;> simp_all [max_weight_per_minute]

/-- C3 (amended): for every request sequence in which each single request's
weight is within the cap, after every admission the weight counter — the
cumulative weight admitted since the last counter reset, i.e. within the
current fixed window — never exceeds the 1200-unit cap.  The counters are
reset lazily at the first call arriving 60 s or more after `last_reset`
(not exactly at window boundaries), and a call that would exceed the cap
suspends until the window rolls over, after which the counters are reset;
across a reset boundary a rolling 60-second window may carry up to twice
the cap (see the counterexample). -/
theorem rl_fixed_window_bounded (s : RLState) (reqs : List (Nat × Nat))
    (hw : ∀ r ∈ reqs, r.2 ≤ max_weight_per_minute) :
    ∀ a ∈ runRL s reqs, a.state.weight_per_minute ≤ max_weight_per_minute := by
  induction reqs generalizing s with
  | nil => intro a ha; cases ha
  | cons rq rest ih =>
    obtain ⟨now, w⟩ := rq
    intro a ha
    rw [runRL] at ha
    rcases List.mem_cons.mp ha with rfl | ha'
    · exact rl_step_wpm_le s now w (hw (now, w) (List.mem_cons_self _ _))
    · exact ih _ (fun r hr => hw r (List.mem_cons_of_mem _ hr)) a ha'

/-- Witness for C3 (amended): the first admission of a concrete two-request
run carries counter weight 700 ≤ 1200. -/
theorem rl_fixed_window_bounded_witness : 700 ≤ max_weight_per_minute :=
  rl_fixed_window_bounded ⟨0, 0, 0⟩ [(0, 700), (59, 700)] (by decide)
    ⟨⟨1, 700, 0⟩, 0, 700⟩ (by decide)

/-! ## Discovery stream reconnect loop
(`app/services/discovery_service.py`, `WebSocketDiscoveryService.start`)

The `while self.running and retry_count < self.max_retries` loop is driven
by a script giving the outcome of each iteration's connection attempt
(`self.running` stays true; `stop` only truncates the script). -/

/-- What one iteration of the reconnect loop does after `websockets.connect`:
the connect call raises (`retry_count += 1`, sleep); or it succeeds —
resetting `retry_count` to 0 — and the session later dies with an exception
caught by the same handlers (`retry_count` becomes 1, sleep); or it succeeds
and the message loop ends without raising (no sleep, counter stays 0). -/
inductive ConnOutcome
  | connectFail
  | sessionError
  | sessionGraceful
  deriving DecidableEq, Repr

/-- `self.max_retries = 5`. -/
def max_retries : Nat := 5

/-- `wait_time = min(60, 2 ** retry_count)`, computed from the
already-incremented `retry_count`. -/
def reconnect_wait (retry_count : Nat) : Nat := min 60 (2 ^ retry_count)

/-- The sleep durations of a run of the reconnect loop, starting from a
given `retry_count`. -/
def runWaits : Nat → List ConnOutcome → List Nat
  | _, [] => []
  | rc, o :: rest =>
    if rc < max_retries then
      match o with
      | .connectFail => reconnect_wait (rc + 1) :: runWaits (rc + 1) rest
      | .sessionError => reconnect_wait 1 :: runWaits 1 rest
      | .sessionGraceful => runWaits 0 rest
    else []

/-- The number of connection attempts (`websockets.connect` calls) a run of
the reconnect loop makes, starting from a given `retry_count`. -/
def runAttempts : Nat → List ConnOutcome → Nat
  | _, [] => 0
  | rc, o :: rest =>
    if rc < max_retries then
      match o with
      | .connectFail => 1 + runAttempts (rc + 1) rest
      | .sessionError => 1 + runAttempts 1 rest
      | .sessionGraceful => 1 + runAttempts 0 rest
    else 0

/-- C4 counterexample: after the first consecutive failure (zero prior
failures) the code sleeps `min(60, 2^1) = 2` seconds, because
`retry_count` is incremented before the wait is computed — not
`min(60, 2^0) = 1` as the claim (wait computed from the count of prior
failures, before incrementing) requires. -/
theorem reconnect_first_wait_is_two :
    runWaits 0 [ConnOutcome.connectFail] = [2] ∧
    min 60 (2 ^ 0) = 1 ∧ (2 : Nat) ≠ 1 := by decide

/-- C4 (amended): after the k-th consecutive transport error or socket
closure the service first increments the attempt count to k and then waits
`min(60, 2^k)` seconds (k counts the failures including the current one);
a successful reconnect resets the attempt counter to zero, so a graceful
session makes the rest of the run behave as from a fresh counter. -/
theorem reconnect_backoff_schedule :
    (∀ k : Nat, k ≤ max_retries →
      runWaits 0 (List.replicate k ConnOutcome.connectFail) =
        (List.range k).map (fun i => min 60 (2 ^ (i + 1)))) ∧
    (∀ rc : Nat, ∀ rest : List ConnOutcome, rc < max_retries →
      runWaits rc (ConnOutcome.sessionGraceful :: rest) = runWaits 0 rest) := by
  constructor
  · intro k hk
    simp only [max_retries] at hk
    interval_cases k <;> rfl
  · intro rc rest hrc
    rw [runWaits, if_pos hrc]

/-- Witness for C4 (amended): three straight failures wait 2, 4, 8 seconds,
and a graceful session from `retry_count = 3` resets the schedule. -/
theorem reconnect_backoff_schedule_witness :
    runWaits 0 (List.replicate 3 ConnOutcome.connectFail) =
      (List.range 3).map (fun i => min 60 (2 ^ (i + 1))) ∧
    runWaits 3 [ConnOutcome.sessionGraceful, ConnOutcome.connectFail] =
      runWaits 0 [ConnOutcome.connectFail] :=
  ⟨reconnect_backoff_schedule.1 3 (by decide),
   reconnect_backoff_schedule.2 3 [ConnOutcome.connectFail] (by decide)⟩

/-- C5: once 5 consecutive connection failures have occurred, the run makes
no further connection attempt whatever outcomes would follow: exactly the
5 failing attempts happen, and from the exhausted state (`retry_count ≥ 5`)
the attempt count of any continuation is 0. -/
theorem reconnect_exhausted_terminal (rest : List ConnOutcome) :
    runAttempts 0 (List.replicate max_retries ConnOutcome.connectFail ++ rest) =
      max_retries ∧
    runAttempts max_retries rest = 0 := by
  have h5 : runAttempts max_retries rest = 0 := by
    cases rest <;> simp [runAttempts, max_retries]
  refine ⟨?_, h5⟩
  simp [max_retries, List.replicate, runAttempts, reconnect_wait] at h5 ⊢
  omega

/-! ## Batch tracker (`app/services/tasks/tracking_task.py`,
`_track_traders_batch_async`)

The SQL query `filter(is_active).order_by(last_tracked_at.asc()
.nulls_first()).limit(BATCH_SIZE)` is modelled by sorting the active rows
by the nulls-first order and taking a prefix; a successfully processed
trader gets `last_tracked_at = now`. -/

/-- A `Trader` row as the batch tracker reads it. -/
structure TraderRow where
  id : Nat
  is_active : Bool
  last_tracked_at : Option Nat
  deriving DecidableEq, Repr

/-- `last_tracked_at ASC NULLS FIRST`: `NULL` sorts before every timestamp. -/
def nullsFirstLe : Option Nat → Option Nat → Bool
  | none, _ => true
  | some _, none => false
  | some a, some b => a ≤ b

/-- The batch tracker's selection order on trader rows. -/
def trackedLe (t u : TraderRow) : Prop :=
  nullsFirstLe t.last_tracked_at u.last_tracked_at = true

instance : DecidableRel trackedLe := fun _ _ => by
  unfold trackedLe; infer_instance

instance : IsTotal TraderRow trackedLe := ⟨by
  intro t u
  unfold trackedLe
  rcases t with ⟨i, a, _ | x⟩ <;> rcases u with ⟨j, b, _ | y⟩ <;>
    simp [nullsFirstLe]
  exact Nat.le_total x y⟩

instance : IsTrans TraderRow trackedLe := ⟨by
  intro t u v htu huv
  unfold trackedLe at *
  rcases t with ⟨i, a, _ | x⟩ <;> rcases u with ⟨j, b, _ | y⟩ <;>
    rcases v with ⟨k, c, _ | z⟩ <;> simp_all [nullsFirstLe]
  omega⟩

/-- The batch the tracker selects: active traders, ordered by
`last_tracked_at` ascending with nulls first, limited to `batch_size`. -/
def selectBatch (batch_size : Nat) (traders : List TraderRow) : List TraderRow :=
  ((traders.filter (fun t => t.is_active)).insertionSort trackedLe).take batch_size

/-- `trader.last_tracked_at = datetime.utcnow()` on successful processing. -/
def trackSuccess (now : Nat) (t : TraderRow) : TraderRow :=
  { t with last_tracked_at := some now }

/-- C6: the selected batch consists of active traders only, is ordered by
`last_tracked_at` ascending with nulls first, has length
`min batch_size #actives`, and no unselected active trader sorts strictly
before any batch member; a successfully processed trader's
`last_tracked_at` becomes `now`, which sorts it at or after every trader
whose timestamp is at most `now` (it moves to the back of the queue), so
no active trader is starved. -/
theorem batch_selection_fair (batch_size : Nat) (traders : List TraderRow)
    (now : Nat) :
    (∀ t ∈ selectBatch batch_size traders, t.is_active = true) ∧
    (selectBatch batch_size traders).Sorted trackedLe ∧
    (selectBatch batch_size traders).length =
      min batch_size (traders.filter (fun t => t.is_active)).length ∧
    (∀ t ∈ selectBatch batch_size traders, ∀ u ∈ traders, u.is_active = true →
      u ∉ selectBatch batch_size traders → trackedLe t u) ∧
    (∀ t : TraderRow, (trackSuccess now t).last_tracked_at = some now) ∧
    (∀ t u : TraderRow, nullsFirstLe u.last_tracked_at (some now) = true →
      trackedLe u (trackSuccess now t)) := by
  have hsorted := List.sorted_insertionSort trackedLe
    (traders.filter (fun t => t.is_active))
  have hperm := List.perm_insertionSort trackedLe
    (traders.filter (fun t => t.is_active))
  refine ⟨?_, ?_, ?_, ?_, fun t => rfl, fun t u h => h⟩
  · intro t ht
    have : t ∈ (traders.filter (fun t => t.is_active)).insertionSort trackedLe :=
      List.mem_of_mem_take ht
    exact List.of_mem_filter (hperm.mem_iff.mp this)
  · exact List.Pairwise.sublist (List.take_sublist _ _) hsorted
  · rw [selectBatch, List.length_take, hperm.length_eq]
  · intro t ht u hu hact hnot
    have huS : u ∈ (traders.filter (fun t => t.is_active)).insertionSort trackedLe :=
      hperm.mem_iff.mpr (List.mem_filter.mpr ⟨hu, hact⟩)
    have hsplit := List.take_append_drop batch_size
      ((traders.filter (fun t => t.is_active)).insertionSort trackedLe)
    have hdrop : u ∈ ((traders.filter (fun t => t.is_active)).insertionSort
        trackedLe).drop batch_size := by
      rcases List.mem_append.mp (by rw [hsplit]; exact huS) with h | h
      · exact absurd h hnot
      · exact h
    have hpw := hsorted
    rw [← hsplit] at hpw
    exact (List.pairwise_append.mp hpw).2.2 t ht u hdrop

/-- A concrete population for the batch tracker witness. -/
def trs : List TraderRow := [⟨1, true, none⟩, ⟨2, true, some 5⟩, ⟨3, false, some 1⟩]

/-- Witness for C6: on a concrete population of three traders with
`batch_size = 1`, the selected batch is sorted, has length 1, a processed
trader's timestamp becomes 7, and the freshly processed trader sorts after
a trader last tracked at time 5. -/
theorem batch_selection_fair_witness :
    (selectBatch 1 trs).Sorted trackedLe ∧
    (selectBatch 1 trs).length = min 1 (trs.filter (fun t => t.is_active)).length ∧
    (trackSuccess 7 ⟨1, true, none⟩).last_tracked_at = some 7 ∧
    trackedLe ⟨2, true, some 5⟩ (trackSuccess 7 ⟨1, true, none⟩) :=
  ⟨(batch_selection_fair 1 trs 7).2.1,
   (batch_selection_fair 1 trs 7).2.2.1,
   (batch_selection_fair 1 trs 7).2.2.2.2.1 ⟨1, true, none⟩,
   (batch_selection_fair 1 trs 7).2.2.2.2.2 ⟨1, true, none⟩ ⟨2, true, some 5⟩
     (by decide)⟩

/-! ## Scoring engine (`app/services/tasks/leaderboard_task.py`)

Metric values are rationals.  `round(x, 4)` is modelled as
`round(x·10⁴)/10⁴` with Mathlib's `round` (the difference from Python's
round-half-to-even arises only at exact ties and does not affect any bound
proved here). -/

/-- The per-trader metrics dictionary produced by
`_calculate_individual_metrics` (and by `_get_default_metrics`). -/
structure Metrics where
  account_age_days : ℚ
  total_volume_usd : ℚ
  win_rate : ℚ
  avg_risk_ratio : ℚ
  max_drawdown : ℚ
  max_profit_usd : ℚ
  max_loss_usd : ℚ
  deriving DecidableEq, Repr

/-- `_get_default_metrics()`: the all-zero metric set substituted for a
trader whose Phase-A computation raised. -/
def _get_default_metrics : Metrics := ⟨0, 0, 0, 0, 0, 0, 0⟩

/-- Phase A of `task_calculate_leaderboard`: run the per-trader metric
computation (an oracle `calc`, since `_calculate_individual_metrics` reads
the database and the clock) under the per-trader `try/except`, substituting
the default metrics on error and never skipping a trader. -/
def phaseA (calcM : TraderRow → Except Unit Metrics)
    (traders : List TraderRow) : List (Nat × Metrics) :=
  traders.map (fun t =>
    (t.id, match calcM t with
      | .ok m => m
      | .error _ => _get_default_metrics))

/-- The five metrics that enter the composite score. -/
inductive ScoreKey
  | win_rate
  | total_volume_usd
  | max_drawdown
  | avg_risk_ratio
  | max_profit_usd
  deriving DecidableEq, Repr

/-- `metrics.get(key, 0.0)` for the five weighted keys (always present). -/
def keyVal (m : Metrics) : ScoreKey → ℚ
  | .win_rate => m.win_rate
  | .total_volume_usd => m.total_volume_usd
  | .max_drawdown => m.max_drawdown
  | .avg_risk_ratio => m.avg_risk_ratio
  | .max_profit_usd => m.max_profit_usd

/-- The scoring weights of `_calculate_trader_scores`. -/
def keyWeight : ScoreKey → ℚ
  | .win_rate => 3 / 10
  | .total_volume_usd => 1 / 5
  | .max_drawdown => 1 / 4
  | .avg_risk_ratio => 3 / 20
  | .max_profit_usd => 1 / 10

/-- `min(values) if values else 0.0`. -/
def listMin : List ℚ → ℚ
  | [] => 0
  | x :: xs => xs.foldl min x

/-- `max(values) if values else 1.0`. -/
def listMax : List ℚ → ℚ
  | [] => 1
  | x :: xs => xs.foldl max x

/-- One metric's `normalization_params` entry. -/
structure NormParams where
  min : ℚ
  max : ℚ
  range : ℚ
  deriving DecidableEq, Repr

/-- `range_val = max_val - min_val if max_val != min_val else 1.0`. -/
def normParamsOf (values : List ℚ) : NormParams :=
  { min := listMin values
    max := listMax values
    range := if listMax values ≠ listMin values
      then listMax values - listMin values else 1 }

/-- Min-max normalization before inversion:
`(value - min)/range if range > 0 else 0.0`. -/
def preNormalize (p : NormParams) (v : ℚ) : ℚ :=
  if 0 < p.range then (v - p.min) / p.range else 0

/-- Full normalization of one metric value: min-max normalize, invert the
drawdown term (`1 - normalized`), clamp to `[0, 1]`. -/
def normalizeVal (p : NormParams) (k : ScoreKey) (v : ℚ) : ℚ :=
  max 0 (min 1 (if k = ScoreKey.max_drawdown
    then 1 - preNormalize p v else preNormalize p v))

/-- The normalization parameters of one metric over the population. -/
def paramsFor (pop : List Metrics) (k : ScoreKey) : NormParams :=
  normParamsOf (pop.map (fun m => keyVal m k))

/-- `round(trader_score, 4)`. -/
def roundTo4 (x : ℚ) : ℚ := (round (x * 10000) : ℤ) / 10000

/-- The composite `trader_score` of one trader against the population. -/
def traderScore (pop : List Metrics) (m : Metrics) : ℚ :=
  roundTo4
    (normalizeVal (paramsFor pop .win_rate) .win_rate (keyVal m .win_rate) *
        keyWeight .win_rate +
      normalizeVal (paramsFor pop .total_volume_usd) .total_volume_usd
          (keyVal m .total_volume_usd) * keyWeight .total_volume_usd +
      normalizeVal (paramsFor pop .max_drawdown) .max_drawdown
          (keyVal m .max_drawdown) * keyWeight .max_drawdown +
      normalizeVal (paramsFor pop .avg_risk_ratio) .avg_risk_ratio
          (keyVal m .avg_risk_ratio) * keyWeight .avg_risk_ratio +
      normalizeVal (paramsFor pop .max_profit_usd) .max_profit_usd
          (keyVal m .max_profit_usd) * keyWeight .max_profit_usd)

/-- `_calculate_trader_scores`: attach the composite score to every entry. -/
def _calculate_trader_scores (pop : List Metrics) : List (Metrics × ℚ) :=
  pop.map (fun m => (m, traderScore pop m))

theorem normalizeVal_mem (p : NormParams) (k : ScoreKey) (v : ℚ) :
    0 ≤ normalizeVal p k v ∧ normalizeVal p k v ≤ 1 :=
  ⟨le_max_left 0 _, max_le (by norm_num) (min_le_left 1 _)⟩

theorem roundTo4_mem (x : ℚ) (h0 : 0 ≤ x) (h1 : x ≤ 1) :
    0 ≤ roundTo4 x ∧ roundTo4 x ≤ 1 := by
  unfold roundTo4
  have hl : (0 : ℤ) ≤ round (x * 10000) := by
    rw [round_eq]
    exact Int.le_floor.mpr (by push_cast; linarith)
  have hq : ((round (x * 10000) : ℤ) : ℚ) ≤ 10000 + 1 / 2 := by
    have h := round_le_add_half (x * 10000)
    linarith
  have hu : round (x * 10000) ≤ 10000 := by
    by_contra hcon
    push_neg at hcon
    have : (10001 : ℚ) ≤ ((round (x * 10000) : ℤ) : ℚ) := by exact_mod_cast hcon
    linarith
  constructor
  · exact div_nonneg (by exact_mod_cast hl) (by norm_num)
  · rw [div_le_one (by norm_num)]
    exact_mod_cast hu

theorem foldl_min_le_init (xs : List ℚ) (x : ℚ) : xs.foldl min x ≤ x := by
  induction xs generalizing x with
  | nil => simp
  | cons y ys ih => exact le_trans (ih (min x y)) (min_le_left x y)

theorem foldl_min_le_mem (xs : List ℚ) (x v : ℚ) (hv : v ∈ xs) :
    xs.foldl min x ≤ v := by
  induction xs generalizing x with
  | nil => cases hv
  | cons y ys ih =>
    rcases List.mem_cons.mp hv with rfl | h
    · exact le_trans (foldl_min_le_init ys (min x v)) (min_le_right x v)
    · exact ih (min x y) h

theorem init_le_foldl_max (xs : List ℚ) (x : ℚ) : x ≤ xs.foldl max x := by
  induction xs generalizing x with
  | nil => simp
  | cons y ys ih => exact le_trans (le_max_left x y) (ih (max x y))

theorem mem_le_foldl_max (xs : List ℚ) (x v : ℚ) (hv : v ∈ xs) :
    v ≤ xs.foldl max x := by
  induction xs generalizing x with
  | nil => cases hv
  | cons y ys ih =>
    rcases List.mem_cons.mp hv with rfl | h
    · exact le_trans (le_max_right x v) (init_le_foldl_max ys (max x v))
    · exact ih (max x y) h

theorem listMin_le_of_mem (l : List ℚ) (v : ℚ) (hv : v ∈ l) : listMin l ≤ v := by
  cases l with
  | nil => cases hv
  | cons x xs =>
    rcases List.mem_cons.mp hv with rfl | h
    · exact foldl_min_le_init xs v
    · exact foldl_min_le_mem xs x v h

theorem le_listMax_of_mem (l : List ℚ) (v : ℚ) (hv : v ∈ l) : v ≤ listMax l := by
  cases l with
  | nil => cases hv
  | cons x xs =>
    rcases List.mem_cons.mp hv with rfl | h
    · exact init_le_foldl_max xs v
    · exact mem_le_foldl_max xs x v h

/-- C7: every composite score `_calculate_trader_scores` attaches lies in
`[0, 1]`; the weights are 0.30 / 0.20 / 0.25 / 0.15 / 0.10 and sum to 1;
and every normalized metric value is clamped to `[0, 1]` before being
weighted. -/
theorem composite_score_in_unit_interval (pop : List Metrics) (p : Metrics × ℚ)
    (hp : p ∈ _calculate_trader_scores pop) :
    (0 ≤ p.2 ∧ p.2 ≤ 1) ∧
    keyWeight .win_rate + keyWeight .total_volume_usd + keyWeight .max_drawdown +
      keyWeight .avg_risk_ratio + keyWeight .max_profit_usd = 1 ∧
    (keyWeight .win_rate = 3 / 10 ∧ keyWeight .total_volume_usd = 1 / 5 ∧
      keyWeight .max_drawdown = 1 / 4 ∧ keyWeight .avg_risk_ratio = 3 / 20 ∧
      keyWeight .max_profit_usd = 1 / 10) ∧
    (∀ q : NormParams, ∀ k : ScoreKey, ∀ v : ℚ,
      0 ≤ normalizeVal q k v ∧ normalizeVal q k v ≤ 1) := by
  refine ⟨?_, by norm_num [keyWeight], by norm_num [keyWeight], normalizeVal_mem⟩
  obtain ⟨m, _, rfl⟩ := List.mem_map.mp hp
  have h1 := normalizeVal_mem (paramsFor pop .win_rate) .win_rate
    (keyVal m .win_rate)
  have h2 := normalizeVal_mem (paramsFor pop .total_volume_usd) .total_volume_usd
    (keyVal m .total_volume_usd)
  have h3 := normalizeVal_mem (paramsFor pop .max_drawdown) .max_drawdown
    (keyVal m .max_drawdown)
  have h4 := normalizeVal_mem (paramsFor pop .avg_risk_ratio) .avg_risk_ratio
    (keyVal m .avg_risk_ratio)
  have h5 := normalizeVal_mem (paramsFor pop .max_profit_usd) .max_profit_usd
    (keyVal m .max_profit_usd)
  apply roundTo4_mem
  · have := h1.1; have := h2.1; have := h3.1; have := h4.1; have := h5.1
    simp only [keyWeight]
    nlinarith [h1.1, h2.1, h3.1, h4.1, h5.1]
  · simp only [keyWeight]
    nlinarith [h1.1, h1.2, h2.1, h2.2, h3.1, h3.2, h4.1, h4.2, h5.1, h5.2]

/-- A concrete metrics row for the scoring witnesses. -/
def mEx : Metrics := ⟨10, 500, 1 / 2, 2, 1 / 10, 50, 20⟩

/-- Witness for C7: the score of a concrete one-trader population is in
`[0, 1]`. -/
theorem composite_score_in_unit_interval_witness :
    0 ≤ traderScore [mEx] mEx ∧ traderScore [mEx] mEx ≤ 1 :=
  ⟨(composite_score_in_unit_interval [mEx] (mEx, traderScore [mEx] mEx)
      (List.mem_singleton.mpr rfl)).1.1,
   (composite_score_in_unit_interval [mEx] (mEx, traderScore [mEx] mEx)
      (List.mem_singleton.mpr rfl)).1.2⟩

/-- C8: the stored normalization divisor `range` is never zero (it is
`max - min` when they differ and the sentinel 1.0 otherwise), so the
division in `(value - min)/range` never divides by zero; and when a
metric's population min equals its population max, the normalized
(pre-inversion) value of every population member is 0. -/
theorem zero_range_normalizes_to_zero (values : List ℚ) (v : ℚ) :
    (normParamsOf values).range ≠ 0 ∧
    (v ∈ values → listMin values = listMax values →
      preNormalize (normParamsOf values) v = 0) := by
  constructor
  · unfold normParamsOf
    split_ifs with h
    · exact sub_ne_zero_of_ne h
    · exact one_ne_zero
  · intro hv heq
    have hle := listMin_le_of_mem values v hv
    have hge := le_listMax_of_mem values v hv
    have hveq : v = listMin values := le_antisymm (heq ▸ hge) hle
    unfold preNormalize normParamsOf
    split_ifs <;> simp [hveq]

/-- Witness for C8: the constant population `[5, 5]`. -/
theorem zero_range_normalizes_to_zero_witness :
    (normParamsOf [5, 5]).range ≠ 0 ∧
    preNormalize (normParamsOf [5, 5]) 5 = 0 :=
  ⟨(zero_range_normalizes_to_zero [5, 5] 5).1,
   (zero_range_normalizes_to_zero [5, 5] 5).2 (List.mem_cons_self _ _)
     (by norm_num [listMin, listMax])⟩

/-- C9: a per-trader exception in Phase A is caught and the trader is
assigned the all-zero default metric set rather than being skipped: the
output has one entry per trader regardless of errors, an erroring trader's
entry is `(id, _get_default_metrics)`, and the default set has all seven
metrics zero. -/
theorem phaseA_defaults_on_error (calcM : TraderRow → Except Unit Metrics)
    (traders : List TraderRow) :
    (phaseA calcM traders).length = traders.length ∧
    (∀ t ∈ traders, calcM t = .error () →
      (t.id, _get_default_metrics) ∈ phaseA calcM traders) ∧
    (_get_default_metrics.account_age_days = 0 ∧
      _get_default_metrics.total_volume_usd = 0 ∧
      _get_default_metrics.win_rate = 0 ∧
      _get_default_metrics.avg_risk_ratio = 0 ∧
      _get_default_metrics.max_drawdown = 0 ∧
      _get_default_metrics.max_profit_usd = 0 ∧
      _get_default_metrics.max_loss_usd = 0) := by
  refine ⟨List.length_map _ _, ?_, by norm_num [_get_default_metrics]⟩
  intro t ht herr
  exact List.mem_map.mpr ⟨t, ht, by rw [herr]⟩

/-- Witness for C9: a trader whose metric computation always raises gets
the default metrics. -/
theorem phaseA_defaults_on_error_witness :
    ((1 : Nat), _get_default_metrics) ∈
      phaseA (fun _ => .error ()) [⟨1, true, none⟩] :=
  (phaseA_defaults_on_error (fun _ => .error ()) [⟨1, true, none⟩]).2.1
    ⟨1, true, none⟩ (List.mem_singleton.mpr rfl) rfl

end AutoTrade
